import Mathlib

/-!
Shallow embedding of the mdbook-rolltables preprocessor.

The repository contains two variants of the preprocessor:
* `src/lib.rs` — the library crate (options `head-separator`, `separator`,
  `warn-unusual-dice`; a special branch for 3-row tables; strict
  configuration type checking in `RollTables::run`);
* `src/main.rs` — a standalone binary (options `label-separator`,
  `separator`, `allow-unusual-dice`; no 3-row branch; configuration values
  of the wrong type silently fall back to defaults).

Rust `usize` values are modelled as `Nat` (the program only counts rows and
indexes vectors, so no overflow arithmetic occurs).  Rust panics (`unwrap`
on `None`, out-of-bounds indexing) are modelled by `Option` results; where a
definition must stay total, out-of-bounds indexing is modelled with
`List.getD`/`List.headD` and the corresponding theorems carry the
well-formedness hypotheses under which the Rust code does not panic.
-/

namespace Rolltables

/-- Per-column alignment, mirroring `pulldown_cmark::Alignment`. -/
inductive Alignment where
  | none
  | left
  | center
  | right
deriving DecidableEq, Repr

/-- The structural tags of `pulldown_cmark::Tag` that the program inspects.
Every other tag is collapsed into the opaque `otherTag` constructor, which
the program must preserve verbatim but never interprets. -/
inductive Tag where
  | table (alignment : List Alignment)
  | tableHead
  | tableRow
  | tableCell
  | otherTag (name : String)
deriving DecidableEq, Repr

/-- One `pulldown_cmark::Event`.  `stop` models `Event::End`  (`end` is a
keyword in Lean); `otherEvent` collapses every inline event other than
`Event::Text` into an opaque payload. -/
inductive Event where
  | start (tag : Tag)
  | stop (tag : Tag)
  | text (s : String)
  | otherEvent (payload : String)
deriving DecidableEq, Repr

/-- Result of `get_dice_iterator`: the header-cell label, the lazily produced
per-row labels (materialised as a list), and whether the unusual-dice
diagnostic was printed to stderr (an `eprintln!` side effect in Rust,
recorded here as a flag). -/
structure DiceResult where
  head : List Event
  labels : List (List Event)
  warned : Bool
deriving DecidableEq, Repr

/-- The Rust range `1..=n`. -/
def range1 (n : Nat) : List Nat := List.range' 1 n

/-- The `combined_dice` closure shared by both variants of
`get_dice_iterator`: header `format!("d{}{}{}", a, head_separator, b)` and
labels `(1..=a).flat_map(|die| repeat(die).zip(1..=b)).map(|(n0, n1)|
format!("{}{}{}", n0, separator, n1))`. -/
def combined_dice (head_separator separator : String) (a b : Nat) : DiceResult :=
  { head := [Event.text ("d" ++ Nat.repr a ++ head_separator ++ Nat.repr b)]
    labels :=
      (((range1 a).flatMap fun die => (range1 b).map fun n1 => (die, n1)).map
        fun p => [Event.text (Nat.repr p.1 ++ separator ++ Nat.repr p.2)])
    warned := false }

/-- `get_dice_iterator` from `src/lib.rs`: the `match count` with the six
combined-dice arms, the special arm for `3`, and the default single-die arm
that may print the unusual-dice warning when `warn_unusual_dice` is set and
`count` is not a canonical die size. -/
def get_dice_iterator (count : Nat) (head_separator separator : String)
    (warn_unusual_dice : Bool) : DiceResult :=
  if count = 16 then combined_dice head_separator separator 4 4
  else if count = 24 then combined_dice head_separator separator 6 4
  else if count = 32 then combined_dice head_separator separator 8 4
  else if count = 36 then combined_dice head_separator separator 6 6
  else if count = 48 then combined_dice head_separator separator 8 6
  else if count = 64 then combined_dice head_separator separator 8 8
  else if count = 3 then
    { head := [Event.text "d6"]
      labels := [[Event.text "1, 2"], [Event.text "3, 4"], [Event.text "5, 6"]]
      warned := false }
  else
    { head := [Event.text ("d" ++ Nat.repr count)]
      labels := (range1 count).map fun i => [Event.text (Nat.repr i)]
      warned := warn_unusual_dice && !([4, 6, 8, 10, 12, 20, 100].contains count) }

/-- `get_dice_iterator` from `src/main.rs`: same combined-dice arms, no arm
for `3`, and the warning condition `!allow_unusual_dice && !matches!(count,
4 | 6 | 8 | 10 | 12 | 20 | 100)`. -/
def get_dice_iterator_main (count : Nat) (label_separator separator : String)
    (allow_unusual_dice : Bool) : DiceResult :=
  if count = 16 then combined_dice label_separator separator 4 4
  else if count = 24 then combined_dice label_separator separator 6 4
  else if count = 32 then combined_dice label_separator separator 8 4
  else if count = 36 then combined_dice label_separator separator 6 6
  else if count = 48 then combined_dice label_separator separator 8 6
  else if count = 64 then combined_dice label_separator separator 8 8
  else
    { head := [Event.text ("d" ++ Nat.repr count)]
      labels := (range1 count).map fun i => [Event.text (Nat.repr i)]
      warned := !allow_unusual_dice && !([4, 6, 8, 10, 12, 20, 100].contains count) }

example : (get_dice_iterator 16 "" "." false).head = [Event.text "d44"] := by decide

example : (get_dice_iterator 3 "" "." false).labels =
    [[Event.text "1, 2"], [Event.text "3, 4"], [Event.text "5, 6"]] := by decide

example : (get_dice_iterator 6 "" "." false).labels =
    [[Event.text "1"], [Event.text "2"], [Event.text "3"],
     [Event.text "4"], [Event.text "5"], [Event.text "6"]] := by decide

example : (get_dice_iterator_main 3 " d" "." false).head = [Event.text "d3"] := by decide

/-- A table extracted from the event stream: the alignment captured from the
`Start(Tag::Table(..))` event and `content`, a list of rows, each row a list
of cells, each cell a list of events.  Row `0` is the header row. -/
structure MarkdownTable where
  alignment : List Alignment
  content : List (List (List Event))
deriving DecidableEq, Repr

/-- Applies `f` to the last element of a list; `none` when the list is empty.
Models Rust's `last_mut().unwrap()` followed by a mutation (the `unwrap`
panic on an empty vector becomes `none`). -/
def modifyLast {α : Type} (f : α → Option α) : List α → Option (List α)
  | [] => none
  | [x] => (f x).map fun y => [y]
  | x :: xs => (modifyLast f xs).map fun ys => x :: ys

/-- `content.last_mut().unwrap().push(vec![])`: opens a new cell in the
current (last) row. -/
def pushCell (content : List (List (List Event))) : Option (List (List (List Event))) :=
  modifyLast (fun row => some (row ++ [[]])) content

/-- `content.last_mut().unwrap().last_mut().unwrap().push(ev)`: appends an
event to the current (last) cell of the current (last) row. -/
def pushEvent (ev : Event) (content : List (List (List Event))) :
    Option (List (List (List Event))) :=
  modifyLast (fun row => modifyLast (fun cell => some (cell ++ [ev])) row) content

/-- The extraction loop of `MarkdownTable::new`, positioned immediately after
the `Start(Tag::Table(..))` event.  Returns the accumulated content and the
unconsumed remainder of the stream on `End(Tag::Table(..))`.  The Rust
`parser.next().unwrap()` panic on an exhausted stream and the
`last_mut().unwrap()` panics become `none`. -/
def extractLoop : List Event → List (List (List Event)) →
    Option (List (List (List Event)) × List Event)
  | [], _ => none
  | Event.start Tag.tableHead :: rest, content => extractLoop rest (content ++ [[]])
  | Event.start Tag.tableRow :: rest, content => extractLoop rest (content ++ [[]])
  | Event.start Tag.tableCell :: rest, content =>
    match pushCell content with
    | some content2 => extractLoop rest content2
    | none => none
  | Event.stop Tag.tableHead :: rest, content => extractLoop rest content
  | Event.stop Tag.tableRow :: rest, content => extractLoop rest content
  | Event.stop Tag.tableCell :: rest, content => extractLoop rest content
  | Event.stop (Tag.table _) :: rest, content => some (content, rest)
  | ev :: rest, content =>
    match pushEvent ev content with
    | some content2 => extractLoop rest content2
    | none => none

/-- `MarkdownTable::new(alignment, parser)`. -/
def MarkdownTable.new (alignment : List Alignment) (events : List Event) :
    Option (MarkdownTable × List Event) :=
  (extractLoop events []).map fun r => ({ alignment := alignment, content := r.1 }, r.2)

/-- Extraction as seen by the driver: consume the `Start(Tag::Table(..))`
event (capturing the alignment) and run `MarkdownTable::new`. -/
def extractTable : List Event → Option (MarkdownTable × List Event)
  | Event.start (Tag.table a) :: rest => MarkdownTable.new a rest
  | _ => none

/-- `table.head()`: the header row, `content[0]`.  The Rust index panic on an
empty table is modelled by the `[]` default. -/
def MarkdownTable.head (t : MarkdownTable) : List (List Event) := t.content.headD []

/-- `table.rows()`: the data rows, `content[1..]`. -/
def MarkdownTable.rows (t : MarkdownTable) : List (List (List Event)) := t.content.drop 1

/-- The `cell_events_iter` helper of `events_iter`. -/
def cellEventsIter (cell : List Event) : List Event :=
  [Event.start Tag.tableCell] ++ cell ++ [Event.stop Tag.tableCell]

/-- The per-data-row chain of `events_iter`. -/
def rowEventsIter (row : List (List Event)) : List Event :=
  [Event.start Tag.tableRow] ++ row.flatMap cellEventsIter ++ [Event.stop Tag.tableRow]

/-- `MarkdownTable::events_iter` from `src/lib.rs`, materialised as a list:
table start, head start, header cells, head end, each data row wrapped in
row start/end, table end. -/
def MarkdownTable.eventsIter (t : MarkdownTable) : List Event :=
  [Event.start (Tag.table t.alignment)]
    ++ [Event.start Tag.tableHead] ++ t.head.flatMap cellEventsIter ++ [Event.stop Tag.tableHead]
    ++ t.rows.flatMap rowEventsIter
    ++ [Event.stop (Tag.table t.alignment)]

/-- The roll-table pattern test from `handle_chapter`:
`table.head()[0] == [Event::Text("d".into())] &&
 table.rows().iter().all(|row| row[0].is_empty())`.
The `[0]` cell indexes are modelled with `List.headD`. -/
def detect (t : MarkdownTable) : Bool :=
  decide (t.head.headD [] = [Event.text "d"]) && t.rows.all fun row => (row.headD []).isEmpty

/-- The three resolved configuration options of `src/lib.rs`. -/
structure Settings where
  head_separator : String
  separator : String
  warn_unusual_dice : Bool
deriving DecidableEq, Repr

/-- The table rewrite inside `handle_chapter` (`src/lib.rs`): when `detect`
accepts, set the header row's cell 0 to the generated head label and zip the
generated row labels onto the data rows' cell 0; otherwise leave the table
untouched. -/
def transformTable (s : Settings) (t : MarkdownTable) : MarkdownTable :=
  if detect t then
    let count := t.content.length - 1
    let r := get_dice_iterator count s.head_separator s.separator s.warn_unusual_dice
    { t with
      content :=
        match t.content with
        | [] => []
        | h :: rows => h.set 0 r.head :: List.zipWith (fun i row => row.set 0 i) r.labels rows }
  else t

example :
    transformTable ⟨"", ".", false⟩
      ⟨[Alignment.center, Alignment.left],
       [[[Event.text "d"], [Event.text "Class"]],
        [[], [Event.text "Warrior"]],
        [[], [Event.text "Thief"]],
        [[], [Event.text "Wizard"]]]⟩ =
      ⟨[Alignment.center, Alignment.left],
       [[[Event.text "d6"], [Event.text "Class"]],
        [[Event.text "1, 2"], [Event.text "Warrior"]],
        [[Event.text "3, 4"], [Event.text "Thief"]],
        [[Event.text "5, 6"], [Event.text "Wizard"]]]⟩ := by decide

/-- Extraction consumes at least one event: the remainder it returns is a
strict suffix of its input.  Justifies termination of the chapter driver. -/
theorem extractLoop_rest_length :
    ∀ (evs : List Event) (acc content rest : _),
      extractLoop evs acc = some (content, rest) → rest.length < evs.length := by
  intro evs
  induction evs with
  | nil => intro acc c r h; simp [extractLoop] at h
  | cons ev tail ih =>
    intro acc c r h
    cases ev with
    | start tag =>
      cases tag with
      | table a =>
        simp only [extractLoop] at h
        split at h
        · exact Nat.lt_succ_of_lt (ih _ _ _ h)
        · exact absurd h (by simp)
      | tableHead => exact Nat.lt_succ_of_lt (ih _ _ _ h)
      | tableRow => exact Nat.lt_succ_of_lt (ih _ _ _ h)
      | tableCell =>
        simp only [extractLoop] at h
        split at h
        · exact Nat.lt_succ_of_lt (ih _ _ _ h)
        · exact absurd h (by simp)
      | otherTag s =>
        simp only [extractLoop] at h
        split at h
        · exact Nat.lt_succ_of_lt (ih _ _ _ h)
        · exact absurd h (by simp)
    | stop tag =>
      cases tag with
      | table a =>
        simp only [extractLoop, Option.some.injEq, Prod.mk.injEq] at h
        obtain ⟨-, hr⟩ := h
        subst hr
        exact Nat.lt_succ_self _
      | tableHead => exact Nat.lt_succ_of_lt (ih _ _ _ h)
      | tableRow => exact Nat.lt_succ_of_lt (ih _ _ _ h)
      | tableCell => exact Nat.lt_succ_of_lt (ih _ _ _ h)
      | otherTag s =>
        simp only [extractLoop] at h
        split at h
        · exact Nat.lt_succ_of_lt (ih _ _ _ h)
        · exact absurd h (by simp)
    | text s =>
      simp only [extractLoop] at h
      split at h
      · exact Nat.lt_succ_of_lt (ih _ _ _ h)
      · exact absurd h (by simp)
    | otherEvent s =>
      simp only [extractLoop] at h
      split at h
      · exact Nat.lt_succ_of_lt (ih _ _ _ h)
      · exact absurd h (by simp)

/-- `MarkdownTable::new` returns a strict suffix of its input stream. -/
theorem MarkdownTable.new_rest_length {a : List Alignment} {evs : List Event}
    {t : MarkdownTable} {rest : List Event} (h : MarkdownTable.new a evs = some (t, rest)) :
    rest.length < evs.length := by
  unfold MarkdownTable.new at h
  cases hr : extractLoop evs [] with
  | none => rw [hr] at h; simp at h
  | some r =>
    rw [hr] at h
    simp only [Option.map_some', Option.some.injEq, Prod.mk.injEq] at h
    obtain ⟨-, hrest⟩ := h
    subst hrest
    exact extractLoop_rest_length evs [] r.1 r.2 (by rw [hr])

/-- The event loop of `handle_chapter`, abstracted over the table rewrite
`tf` (the two variants differ only in the generator they call from it):
non-table events pass through; a `Start(Tag::Table(..))` event delegates to
`MarkdownTable::new`, rewrites the table, and splices the reassembled
events into the output.  A malformed stream (an extraction panic) yields
`none`. -/
def handleChapterWith (tf : MarkdownTable → MarkdownTable) : List Event → Option (List Event)
  | [] => some []
  | Event.start (Tag.table a) :: rest =>
    match h : MarkdownTable.new a rest with
    | some tr => (handleChapterWith tf tr.2).map fun out => (tf tr.1).eventsIter ++ out
    | none => none
  | ev :: rest => (handleChapterWith tf rest).map fun out => ev :: out
termination_by evs => evs.length
decreasing_by
  · exact Nat.lt_succ_of_lt (MarkdownTable.new_rest_length h)
  · simp only [List.length_cons]
    omega

/-- A raw TOML value, as far as the program discriminates them. -/
inductive TomlValue where
  | strVal (s : String)
  | boolVal (b : Bool)
  | intVal (n : Int)
deriving DecidableEq, Repr

/-- The preprocessor's configuration table (`src/lib.rs` naming): each
recognized key either absent or bound to some TOML value. -/
structure Config where
  head_separator : Option TomlValue
  separator : Option TomlValue
  warn_unusual_dice : Option TomlValue
deriving DecidableEq, Repr

/-- `cfg.get("head-separator")` resolution in `RollTables::run`
(`src/lib.rs`): a string is used, a missing key defaults to `""`, and any
other value aborts with an error. -/
def parseHeadSeparator : Option TomlValue → Except String String
  | some (TomlValue.strVal s) => Except.ok s
  | some _ => Except.error "head-separator must be a string"
  | none => Except.ok ""

/-- `cfg.get("separator")` resolution in `RollTables::run` (`src/lib.rs`):
default `"."`, error on a non-string. -/
def parseSeparator : Option TomlValue → Except String String
  | some (TomlValue.strVal s) => Except.ok s
  | some _ => Except.error "separator must be a string"
  | none => Except.ok "."

/-- `cfg.get("warn-unusual-dice")` resolution in `RollTables::run`
(`src/lib.rs`): default `false`, error on a non-boolean. -/
def parseWarnUnusualDice : Option TomlValue → Except String Bool
  | some (TomlValue.boolVal b) => Except.ok b
  | some _ => Except.error "warn-unusual-dice must be a bool"
  | none => Except.ok false

/-- The configuration-resolution prefix of `RollTables::run` (`src/lib.rs`),
performed before any chapter is visited. -/
def parseSettings (cfg : Config) : Except String Settings := do
  let hs ← parseHeadSeparator cfg.head_separator
  let sep ← parseSeparator cfg.separator
  let warn ← parseWarnUnusualDice cfg.warn_unusual_dice
  Except.ok { head_separator := hs, separator := sep, warn_unusual_dice := warn }

/-- `RollTables::run` (`src/lib.rs`): resolve the configuration, then
process every chapter.  A chapter is its token stream (the tokenizer and
re-renderer are external); a `none` chapter records an extraction panic. -/
def rollTablesRun (cfg : Config) (chapters : List (List Event)) :
    Except String (List (Option (List Event))) := do
  let s ← parseSettings cfg
  Except.ok (chapters.map (handleChapterWith (transformTable s)))

/-- The resolved options of `src/main.rs`. -/
structure SettingsMain where
  label_separator : String
  separator : String
  allow_unusual_dice : Bool
deriving DecidableEq, Repr

/-- The configuration table of `src/main.rs`. -/
structure ConfigMain where
  label_separator : Option TomlValue
  separator : Option TomlValue
  allow_unusual_dice : Option TomlValue
deriving DecidableEq, Repr

/-- `toml::Value::as_str`. -/
def TomlValue.asStr : TomlValue → Option String
  | TomlValue.strVal s => some s
  | _ => none

/-- `toml::Value::as_bool`. -/
def TomlValue.asBool : TomlValue → Option Bool
  | TomlValue.boolVal b => some b
  | _ => none

/-- The configuration resolution of `RollTables::run` (`src/main.rs`):
`cfg.get(k).map(|v| v.as_xxx()).flatten().unwrap_or(default)` — a value of
the wrong type silently falls back to the default; no error is possible. -/
def parseSettingsMain (cfg : ConfigMain) : SettingsMain :=
  { label_separator := (cfg.label_separator.bind TomlValue.asStr).getD " d"
    separator := (cfg.separator.bind TomlValue.asStr).getD "."
    allow_unusual_dice := (cfg.allow_unusual_dice.bind TomlValue.asBool).getD false }

/-- The table rewrite inside `handle_chapter` (`src/main.rs`): the same
pattern test, with `get_dice_iterator` of `src/main.rs`. -/
def transformTableMain (s : SettingsMain) (t : MarkdownTable) : MarkdownTable :=
  if detect t then
    let count := t.content.length - 1
    let r := get_dice_iterator_main count s.label_separator s.separator s.allow_unusual_dice
    { t with
      content :=
        match t.content with
        | [] => []
        | h :: rows => h.set 0 r.head :: List.zipWith (fun i row => row.set 0 i) r.labels rows }
  else t

/-- `RollTables::run` (`src/main.rs`): resolves the configuration without
any type validation and always returns `Ok`. -/
def rollTablesRunMain (cfg : ConfigMain) (chapters : List (List Event)) :
    Except String (List (Option (List Event))) :=
  Except.ok (chapters.map (handleChapterWith (transformTableMain (parseSettingsMain cfg))))

/-- The combined-dice labels, rewritten from the source's
pairs-then-format shape into the nested loop the spec describes. -/
theorem combined_dice_labels (hs sep : String) (a b : Nat) :
    (combined_dice hs sep a b).labels =
      (range1 a).flatMap fun n0 => (range1 b).map fun n1 =>
        [Event.text (Nat.repr n0 ++ sep ++ Nat.repr n1)] := by
  simp [combined_dice, List.map_flatMap, List.map_map, Function.comp_def]

/-- The combined-dice branch emits exactly `a * b` labels. -/
theorem combined_dice_labels_length (hs sep : String) (a b : Nat) :
    (combined_dice hs sep a b).labels.length = a * b := by
  rw [combined_dice_labels, List.length_flatMap]
  simp [Function.comp_def, range1, List.map_const', smul_eq_mul, Nat.mul_comm]

/-- The generator always emits exactly `count` labels (the
`GeneratorLengthMismatch` invariant). -/
theorem get_dice_iterator_labels_length (count : Nat) (hs sep : String) (w : Bool) :
    (get_dice_iterator count hs sep w).labels.length = count := by
  unfold get_dice_iterator
  split_ifs with h16 h24 h32 h36 h48 h64 h3 <;>
    simp_all [combined_dice_labels_length, range1]

/-- Every generated row label is a nonempty token sequence (a single
`Text` token). -/
theorem get_dice_iterator_labels_ne_nil (count : Nat) (hs sep : String) (w : Bool) :
    ∀ lab ∈ (get_dice_iterator count hs sep w).labels, lab ≠ [] := by
  unfold get_dice_iterator
  split_ifs <;> intro lab hlab
  case _ | _ | _ | _ | _ | _ =>
    obtain ⟨p, -, rfl⟩ := List.mem_map.mp hlab
    simp
  case _ =>
    simp only [List.mem_cons, List.not_mem_nil, or_false] at hlab
    rcases hlab with rfl | rfl | rfl <;> simp
  case _ =>
    obtain ⟨i, -, rfl⟩ := List.mem_map.mp hlab
    simp

/-- C1: for row counts 16, 24, 32, 36, 48 and 64 the generator takes the
combined-dice branch with dice (4,4), (6,4), (8,4), (6,6), (8,6), (8,8)
respectively: the header label is `"d" + a + head-separator + b`, and the
per-row labels are `n0 + separator + n1` in die-major order (outer loop
`n0` from 1 to `a`, inner loop `n1` from 1 to `b`), `a * b = rowCount`
labels in total. -/
theorem combined_dice_table (hs sep : String) (w : Bool) (count a b : Nat)
    (h : (count, a, b) ∈
      ([(16, 4, 4), (24, 6, 4), (32, 8, 4), (36, 6, 6), (48, 8, 6), (64, 8, 8)] :
        List (Nat × Nat × Nat))) :
    (get_dice_iterator count hs sep w).head =
        [Event.text ("d" ++ Nat.repr a ++ hs ++ Nat.repr b)] ∧
      (get_dice_iterator count hs sep w).labels =
        ((range1 a).flatMap fun n0 => (range1 b).map fun n1 =>
          [Event.text (Nat.repr n0 ++ sep ++ Nat.repr n1)]) ∧
      (get_dice_iterator count hs sep w).labels.length = a * b ∧ a * b = count := by
  simp only [List.mem_cons, List.not_mem_nil, or_false, Prod.mk.injEq] at h
  rcases h with h | h | h | h | h | h <;> obtain ⟨rfl, rfl, rfl⟩ := h <;>
    exact ⟨by simp [get_dice_iterator, combined_dice],
      by simp [get_dice_iterator, combined_dice_labels],
      by simp [get_dice_iterator, combined_dice_labels_length],
      by norm_num⟩

/-- Witness for C1 at rowCount 16 with the default separators. -/
theorem combined_dice_table_witness :
    (get_dice_iterator 16 "" "." false).head =
        [Event.text ("d" ++ Nat.repr 4 ++ "" ++ Nat.repr 4)] ∧
      (get_dice_iterator 16 "" "." false).labels =
        ((range1 4).flatMap fun n0 => (range1 4).map fun n1 =>
          [Event.text (Nat.repr n0 ++ "." ++ Nat.repr n1)]) ∧
      (get_dice_iterator 16 "" "." false).labels.length = 4 * 4 ∧ 4 * 4 = 16 :=
  combined_dice_table "" "." false 16 4 4 (by decide)

/-- C3 counterexample: for rowCount 3 the library generator does not return
header `"d3"` with labels `"1","2","3"`; it takes a dedicated branch that
returns header `"d6"` with the grouped labels `"1, 2"`, `"3, 4"`,
`"5, 6"`. -/
theorem three_rows_special_counterexample :
    (get_dice_iterator 3 "" "." false).head = [Event.text "d6"] ∧
      (get_dice_iterator 3 "" "." false).labels =
        [[Event.text "1, 2"], [Event.text "3, 4"], [Event.text "5, 6"]] ∧
      ¬((get_dice_iterator 3 "" "." false).head = [Event.text "d3"] ∧
        (get_dice_iterator 3 "" "." false).labels =
          [[Event.text "1"], [Event.text "2"], [Event.text "3"]]) := by
  decide

/-- C3 as amended: every row count outside {16, 24, 32, 36, 48, 64} other
than 3 gets header `"dN"` and labels `"1",...,"N"`; rowCount 3 is a further
special case of the library generator (header `"d6"`, grouped labels),
while the binary's generator treats 3 like any other single die. -/
theorem single_die_default_branch :
    (∀ (count : Nat) (hs sep : String) (w : Bool),
        count ∉ ([16, 24, 32, 36, 48, 64, 3] : List Nat) →
        (get_dice_iterator count hs sep w).head = [Event.text ("d" ++ Nat.repr count)] ∧
          (get_dice_iterator count hs sep w).labels =
            (range1 count).map fun i => [Event.text (Nat.repr i)]) ∧
      (∀ (hs sep : String) (w : Bool),
        get_dice_iterator 3 hs sep w =
          ⟨[Event.text "d6"],
           [[Event.text "1, 2"], [Event.text "3, 4"], [Event.text "5, 6"]], false⟩) ∧
      (∀ (count : Nat) (ls sep : String) (w : Bool),
        count ∉ ([16, 24, 32, 36, 48, 64] : List Nat) →
        (get_dice_iterator_main count ls sep w).head =
            [Event.text ("d" ++ Nat.repr count)] ∧
          (get_dice_iterator_main count ls sep w).labels =
            (range1 count).map fun i => [Event.text (Nat.repr i)]) := by
  refine ⟨?_, ?_, ?_⟩
  · intro count hs sep w h
    simp only [List.mem_cons, List.not_mem_nil, or_false, not_or] at h
    obtain ⟨h16, h24, h32, h36, h48, h64, h3⟩ := h
    simp [get_dice_iterator, h16, h24, h32, h36, h48, h64, h3]
  · intro hs sep w
    simp [get_dice_iterator]
  · intro count ls sep w h
    simp only [List.mem_cons, List.not_mem_nil, or_false, not_or] at h
    obtain ⟨h16, h24, h32, h36, h48, h64⟩ := h
    simp [get_dice_iterator_main, h16, h24, h32, h36, h48, h64]

/-- Witness for C3 as amended, at rowCounts 12 and 3. -/
theorem single_die_default_branch_witness :
    ((get_dice_iterator 12 "" "." false).head = [Event.text ("d" ++ Nat.repr 12)] ∧
        (get_dice_iterator 12 "" "." false).labels =
          (range1 12).map fun i => [Event.text (Nat.repr i)]) ∧
      (get_dice_iterator_main 3 " d" "." false).head = [Event.text ("d" ++ Nat.repr 3)] ∧
        (get_dice_iterator_main 3 " d" "." false).labels =
          (range1 3).map fun i => [Event.text (Nat.repr i)] :=
  ⟨single_die_default_branch.1 12 "" "." false (by decide),
    single_die_default_branch.2.2 3 " d" "." false (by decide)⟩

/-- C5 counterexample: under the default configuration of `src/lib.rs`
(`head-separator` defaults to `""`), rowCount 16 yields the header label
`"d44"`, not `"d4.4"`. -/
theorem default_d16_header_counterexample :
    parseSettings ⟨none, none, none⟩ = Except.ok ⟨"", ".", false⟩ ∧
      (get_dice_iterator 16 "" "." false).head = [Event.text "d44"] ∧
      (get_dice_iterator 16 "" "." false).head ≠ [Event.text "d4.4"] :=
  ⟨rfl, by decide, by decide⟩

/-- C5 as amended: for rowCount 16 under the default configuration
(`head-separator` `""`, `separator` `"."`), the header label is `"d44"`
and the 16 row labels are `"1.1", "1.2", ..., "4.4"` in die-major
order. -/
theorem default_d16_labels :
    parseSettings ⟨none, none, none⟩ = Except.ok ⟨"", ".", false⟩ ∧
      get_dice_iterator 16 "" "." false =
        ⟨[Event.text "d44"],
         [[Event.text "1.1"], [Event.text "1.2"], [Event.text "1.3"], [Event.text "1.4"],
          [Event.text "2.1"], [Event.text "2.2"], [Event.text "2.3"], [Event.text "2.4"],
          [Event.text "3.1"], [Event.text "3.2"], [Event.text "3.3"], [Event.text "3.4"],
          [Event.text "4.1"], [Event.text "4.2"], [Event.text "4.3"], [Event.text "4.4"]],
         false⟩ :=
  ⟨rfl, by decide⟩

/-- C6: the unusual-dice flag is reported exactly when the generator
resolves to the default single-die branch (rowCount outside the six
combined counts and outside the special count 3), the count is not a
canonical die size, and the configuration requests the warning; and the
flag never influences the generated header or row labels. -/
theorem unusual_dice_warning (count : Nat) (hs sep : String) (w : Bool) :
    ((get_dice_iterator count hs sep w).warned = true ↔
        count ∉ ([16, 24, 32, 36, 48, 64, 3] : List Nat) ∧
          count ∉ ([4, 6, 8, 10, 12, 20, 100] : List Nat) ∧ w = true) ∧
      (get_dice_iterator count hs sep w).head = (get_dice_iterator count hs sep false).head ∧
      (get_dice_iterator count hs sep w).labels =
        (get_dice_iterator count hs sep false).labels := by
  unfold get_dice_iterator
  split_ifs with h16 h24 h32 h36 h48 h64 h3 <;>
    simp_all [combined_dice, List.elem_iff] <;> tauto

/-- C2: the detector accepts a table exactly when the header row's first
cell is the single `Text` token `"d"` and every data row's first cell is
empty; a rejected table is left untouched by the transformation.  The
hypothesis `hrows` restricts the statement to tables on which the Rust
`row[0]` indexing does not panic (every extracted markdown table has at
least one cell per row). -/
theorem detector_accepts_iff (s : Settings) (t : MarkdownTable)
    (hrows : ∀ row ∈ t.content, row ≠ []) :
    (detect t = true ↔
        t.head.headD [] = [Event.text "d"] ∧ ∀ row ∈ t.rows, row.headD [] = []) ∧
      (detect t = false → transformTable s t = t) := by
  constructor
  · simp [detect, List.all_eq_true, List.isEmpty_iff]
  · intro h
    simp [transformTable, h]

/-- Witness for C2 on a concrete two-row table whose header cell is the
text `"x"` (rejected, hence untouched). -/
theorem detector_accepts_iff_witness :
    (∀ row ∈ (⟨[], [[[Event.text "x"]], [[]]]⟩ : MarkdownTable).content, row ≠ []) ∧
      ((detect ⟨[], [[[Event.text "x"]], [[]]]⟩ = true ↔
          (⟨[], [[[Event.text "x"]], [[]]]⟩ : MarkdownTable).head.headD [] =
              [Event.text "d"] ∧
            ∀ row ∈ (⟨[], [[[Event.text "x"]], [[]]]⟩ : MarkdownTable).rows,
              row.headD [] = []) ∧
        (detect ⟨[], [[[Event.text "x"]], [[]]]⟩ = false →
          transformTable ⟨"", ".", false⟩ ⟨[], [[[Event.text "x"]], [[]]]⟩ =
            ⟨[], [[[Event.text "x"]], [[]]]⟩)) :=
  ⟨by decide, detector_accepts_iff ⟨"", ".", false⟩ ⟨[], [[[Event.text "x"]], [[]]]⟩ (by decide)⟩

/-- An accepted table has at least the header row. -/
theorem detect_content_ne_nil {t : MarkdownTable} (hd : detect t = true) :
    t.content ≠ [] := by
  intro hc
  rw [detect, MarkdownTable.head, hc] at hd
  simp at hd

/-- Indexing the zipped label/row rewrite: element `i` is row `i` with its
cell 0 replaced by label `i` (out of range, both sides collapse to `[]`). -/
theorem zipWith_set_getD (labels : List (List Event)) (rows : List (List (List Event)))
    (hlen : labels.length = rows.length) (i : Nat) :
    (List.zipWith (fun lab row => row.set 0 lab) labels rows).getD i [] =
      (rows.getD i []).set 0 (labels.getD i []) := by
  simp only [List.getD_eq_getElem?_getD, List.getElem?_zipWith]
  cases hi : rows[i]? with
  | none =>
    have hnone : labels[i]? = none := by
      rw [List.getElem?_eq_none_iff] at hi ⊢
      omega
    simp [hnone, hi]
  | some r =>
    have hlt : i < rows.length := by
      by_contra hge
      rw [List.getElem?_eq_none_iff.mpr (by omega)] at hi
      exact Option.noConfusion hi
    have hltl : i < labels.length := by omega
    rw [List.getElem?_eq_getElem hltl]
    simp [hi]

/-- The roll table of the crate's doc comment, used as a concrete witness
input. -/
def exTable : MarkdownTable :=
  ⟨[Alignment.center, Alignment.left],
   [[[Event.text "d"], [Event.text "Class"]],
    [[], [Event.text "Warrior"]],
    [[], [Event.text "Thief"]],
    [[], [Event.text "Wizard"]]]⟩

/-- The default settings of `src/lib.rs`. -/
def exSettings : Settings := ⟨"", ".", false⟩

/-- C10: on an accepted table the rewrite changes only cell 0 of the header
row and of each data row: the alignment, the row count, every row's cell
count, and every cell with index ≥ 1 are unchanged (rows and cells are
addressed with `List.getD`, so the statement covers all indexes). -/
theorem transform_frame (s : Settings) (t : MarkdownTable) (hd : detect t = true) :
    (transformTable s t).alignment = t.alignment ∧
      (transformTable s t).content.length = t.content.length ∧
      (∀ i, ((transformTable s t).content.getD i []).length =
        (t.content.getD i []).length) ∧
      ∀ i j, 1 ≤ j →
        ((transformTable s t).content.getD i []).getD j [] =
          (t.content.getD i []).getD j [] := by
  obtain ⟨al, content⟩ := t
  cases content with
  | nil => exact absurd rfl (detect_content_ne_nil hd)
  | cons h rows =>
    have hlen :
        (get_dice_iterator rows.length s.head_separator s.separator
          s.warn_unusual_dice).labels.length = rows.length :=
      get_dice_iterator_labels_length ..
    simp only [transformTable, hd, if_true, List.length_cons, Nat.add_sub_cancel]
    refine ⟨trivial, ?_, ?_, ?_⟩
    · simp [List.length_zipWith, hlen]
    · intro i
      cases i with
      | zero => simp
      | succ n =>
        simp only [List.getD_cons_succ]
        rw [zipWith_set_getD _ _ hlen]
        simp
    · intro i j hj
      cases i with
      | zero =>
        simp only [List.getD_cons_zero]
        simp only [List.getD_eq_getElem?_getD]
        rw [List.getElem?_set_ne (by omega)]
      | succ n =>
        simp only [List.getD_cons_succ]
        rw [zipWith_set_getD _ _ hlen]
        simp only [List.getD_eq_getElem?_getD]
        rw [List.getElem?_set_ne (by omega)]

/-- Witness for C10 on the crate doc-comment table. -/
theorem transform_frame_witness :
    detect exTable = true ∧
      (transformTable exSettings exTable).alignment = exTable.alignment ∧
      (transformTable exSettings exTable).content.length = exTable.content.length ∧
      ((transformTable exSettings exTable).content.getD 1 []).length =
        (exTable.content.getD 1 []).length ∧
      ((transformTable exSettings exTable).content.getD 1 []).getD 1 [] =
        (exTable.content.getD 1 []).getD 1 [] :=
  ⟨by decide, (transform_frame exSettings exTable (by decide)).1,
    (transform_frame exSettings exTable (by decide)).2.1,
    (transform_frame exSettings exTable (by decide)).2.2.1 1,
    (transform_frame exSettings exTable (by decide)).2.2.2 1 1 (by decide)⟩

/-- C9: after a rewrite, the header's first cell is a `"dN"` or combined
label rather than the bare text `"d"` (and the data rows' first cells are
nonempty), so the detector rejects the rewritten table and running the
transformation again is a no-op.  `hrows` excludes tables whose rows have
no cells, on which the Rust `row[0]` indexing would panic. -/
theorem transform_idempotent (s : Settings) (t : MarkdownTable)
    (hrows : ∀ row ∈ t.content, row ≠ []) (hd : detect t = true) :
    detect (transformTable s t) = false ∧
      transformTable s (transformTable s t) = transformTable s t := by
  have hfalse : detect (transformTable s t) = false := by
    obtain ⟨al, content⟩ := t
    cases content with
    | nil => exact absurd rfl (detect_content_ne_nil hd)
    | cons h rows =>
      have hh : h ≠ [] := hrows h (by simp)
      cases h with
      | nil => exact absurd rfl hh
      | cons c0 cs =>
        simp only [transformTable, hd, if_true, List.length_cons, Nat.add_sub_cancel]
        cases rows with
        | nil =>
          simp only [detect, MarkdownTable.head, MarkdownTable.rows, get_dice_iterator]
          simp
          decide
        | cons r0 rs =>
          have hr0 : r0 ≠ [] := hrows r0 (by simp)
          cases hl : (get_dice_iterator (rs.length + 1) s.head_separator s.separator
              s.warn_unusual_dice).labels with
          | nil =>
            have hlen := get_dice_iterator_labels_length (rs.length + 1) s.head_separator
              s.separator s.warn_unusual_dice
            rw [hl] at hlen
            simp at hlen
          | cons l0 ls =>
            have hl0 : l0 ≠ [] :=
              get_dice_iterator_labels_ne_nil (rs.length + 1) s.head_separator s.separator
                s.warn_unusual_dice l0 (hl ▸ List.mem_cons_self l0 ls)
            cases r0 with
            | nil => exact absurd rfl hr0
            | cons rc rcs =>
              cases l0 with
              | nil => exact absurd rfl hl0
              | cons e es =>
                simp [detect, MarkdownTable.rows, hl, List.zipWith_cons_cons,
                  List.set_cons_zero]
  refine ⟨hfalse, ?_⟩
  rw [transformTable, hfalse]
  simp

/-- Witness for C9 on the crate doc-comment table. -/
theorem transform_idempotent_witness :
    (∀ row ∈ exTable.content, row ≠ []) ∧ detect exTable = true ∧
      (detect (transformTable exSettings exTable) = false ∧
        transformTable exSettings (transformTable exSettings exTable) =
          transformTable exSettings exTable) :=
  ⟨by decide, by decide, transform_idempotent exSettings exTable (by decide) (by decide)⟩

/-- Events that fall into the catch-all arm of the extraction loop: all
events other than the structural table tokens it dispatches on.  Cell
contents consist of such events. -/
def plainEvent : Event → Bool
  | Event.start Tag.tableHead => false
  | Event.start Tag.tableRow => false
  | Event.start Tag.tableCell => false
  | Event.stop Tag.tableHead => false
  | Event.stop Tag.tableRow => false
  | Event.stop Tag.tableCell => false
  | Event.stop (Tag.table _) => false
  | _ => true

/-- `modifyLast` on a list with an exposed last element. -/
theorem modifyLast_concat {α : Type} (f : α → Option α) (xs : List α) (x : α) :
    modifyLast f (xs ++ [x]) = (f x).map fun y => xs ++ [y] := by
  induction xs with
  | nil => cases hfx : f x <;> simp [modifyLast, hfx]
  | cons a as ih =>
    cases as with
    | nil => cases hfx : f x <;> simp [modifyLast, hfx]
    | cons b bs =>
      simp only [List.cons_append] at ih ⊢
      simp only [modifyLast]
      rw [ih]
      cases f x <;> simp

/-- A plain event makes the extraction loop take its catch-all arm. -/
theorem extractLoop_plain_cons {ev : Event} (hev : plainEvent ev = true)
    (rest : List Event) (content : List (List (List Event))) :
    extractLoop (ev :: rest) content =
      match pushEvent ev content with
      | some content2 => extractLoop rest content2
      | none => none := by
  cases ev with
  | start tag => cases tag <;> simp_all [plainEvent, extractLoop]
  | stop tag => cases tag <;> simp_all [plainEvent, extractLoop]
  | text s => simp [extractLoop]
  | otherEvent s => simp [extractLoop]

/-- Appending an event when the current row has no open cell is a panic
(`none`), whatever rows were already closed. -/
theorem pushEvent_empty_row (ev : Event) (acc : List (List (List Event))) :
    pushEvent ev (acc ++ [[]]) = none := by
  unfold pushEvent
  rw [modifyLast_concat]
  simp [modifyLast]

/-- C8: the extraction loop fails explicitly (`none`, the model of the
`unwrap` abort) instead of misindexing whenever the stream ends before the
matching table end, or a cell-start or inline token arrives when no row is
open, or an inline token arrives when the open row has no open cell. -/
theorem extraction_malformed_fails :
    (∀ acc : List (List (List Event)), extractLoop [] acc = none) ∧
      (∀ rest : List Event, extractLoop (Event.start Tag.tableCell :: rest) [] = none) ∧
      (∀ (ev : Event) (rest : List Event), plainEvent ev = true →
        extractLoop (ev :: rest) [] = none) ∧
      ∀ (ev : Event) (rest : List Event) (acc : List (List (List Event))),
        plainEvent ev = true → extractLoop (ev :: rest) (acc ++ [[]]) = none := by
  refine ⟨fun acc => rfl, fun rest => rfl, ?_, ?_⟩
  · intro ev rest hev
    rw [extractLoop_plain_cons hev]
    simp [pushEvent, modifyLast]
  · intro ev rest acc hev
    rw [extractLoop_plain_cons hev]
    rw [pushEvent_empty_row]

/-- Witness for C8: an exhausted stream, a cell start with no open row, an
inline token with no open row, and an inline token with no open cell. -/
theorem extraction_malformed_fails_witness :
    plainEvent (Event.text "x") = true ∧
      extractLoop [] [] = none ∧
      extractLoop [Event.start Tag.tableCell] [] = none ∧
      extractLoop [Event.text "x"] [] = none ∧
      extractLoop [Event.text "x"] ([] ++ [[]]) = none :=
  ⟨by decide, extraction_malformed_fails.1 [], extraction_malformed_fails.2.1 [],
    extraction_malformed_fails.2.2.1 (Event.text "x") [] (by decide),
    extraction_malformed_fails.2.2.2 (Event.text "x") [] [] (by decide)⟩

/-- Step equation: a head start opens a new row. -/
theorem extractLoop_startHead (rest : List Event) (content : List (List (List Event))) :
    extractLoop (Event.start Tag.tableHead :: rest) content =
      extractLoop rest (content ++ [[]]) := rfl

/-- Step equation: a row start opens a new row. -/
theorem extractLoop_startRow (rest : List Event) (content : List (List (List Event))) :
    extractLoop (Event.start Tag.tableRow :: rest) content =
      extractLoop rest (content ++ [[]]) := rfl

/-- Step equation: a head end is skipped. -/
theorem extractLoop_stopHead (rest : List Event) (content : List (List (List Event))) :
    extractLoop (Event.stop Tag.tableHead :: rest) content = extractLoop rest content := rfl

/-- Step equation: a row end is skipped. -/
theorem extractLoop_stopRow (rest : List Event) (content : List (List (List Event))) :
    extractLoop (Event.stop Tag.tableRow :: rest) content = extractLoop rest content := rfl

/-- Step equation: a cell end is skipped. -/
theorem extractLoop_stopCell (rest : List Event) (content : List (List (List Event))) :
    extractLoop (Event.stop Tag.tableCell :: rest) content = extractLoop rest content := rfl

/-- Step equation: a table end returns the content and the remainder. -/
theorem extractLoop_stopTable (a : List Alignment) (rest : List Event)
    (content : List (List (List Event))) :
    extractLoop (Event.stop (Tag.table a) :: rest) content = some (content, rest) := rfl

/-- Step equation: a cell start opens a new cell in the current row. -/
theorem extractLoop_startCell (rest : List Event) (content : List (List (List Event))) :
    extractLoop (Event.start Tag.tableCell :: rest) content =
      match pushCell content with
      | some content2 => extractLoop rest content2
      | none => none := rfl

/-- Opening a cell when a row is open appends an empty cell to it. -/
theorem pushCell_concat (acc : List (List (List Event))) (row : List (List Event)) :
    pushCell (acc ++ [row]) = some (acc ++ [row ++ [[]]]) := by
  unfold pushCell
  rw [modifyLast_concat]
  rfl

/-- Appending an event when a cell is open extends that cell. -/
theorem pushEvent_concat (ev : Event) (acc : List (List (List Event)))
    (row : List (List Event)) (cell : List Event) :
    pushEvent ev (acc ++ [row ++ [cell]]) = some (acc ++ [row ++ [cell ++ [ev]]]) := by
  unfold pushEvent
  rw [modifyLast_concat, modifyLast_concat]
  rfl

/-- Extraction replays a cell's events into the open cell. -/
theorem extractLoop_cell_contents (evs : List Event) :
    ∀ (_ : ∀ ev ∈ evs, plainEvent ev = true) (rest : List Event)
      (acc : List (List (List Event))) (row : List (List Event)) (cell : List Event),
      extractLoop (evs ++ rest) (acc ++ [row ++ [cell]]) =
        extractLoop rest (acc ++ [row ++ [cell ++ evs]]) := by
  induction evs with
  | nil =>
    intro _ rest acc row cell
    simp
  | cons ev evs ih =>
    intro hplain rest acc row cell
    have hev := hplain ev (List.mem_cons_self ev evs)
    rw [List.cons_append, extractLoop_plain_cons hev, pushEvent_concat]
    show extractLoop (evs ++ rest) (acc ++ [row ++ [cell ++ [ev]]]) = _
    rw [ih (fun e he => hplain e (List.mem_cons_of_mem ev he)) rest acc row (cell ++ [ev])]
    simp

/-- Extraction replays a row's serialized cells into the open row. -/
theorem extractLoop_row_cells (cells : List (List Event)) :
    ∀ (_ : ∀ c ∈ cells, ∀ ev ∈ c, plainEvent ev = true) (rest : List Event)
      (acc : List (List (List Event))) (row : List (List Event)),
      extractLoop (cells.flatMap cellEventsIter ++ rest) (acc ++ [row]) =
        extractLoop rest (acc ++ [row ++ cells]) := by
  induction cells with
  | nil =>
    intro _ rest acc row
    simp
  | cons c cs ih =>
    intro hplain rest acc row
    have hc := hplain c (List.mem_cons_self c cs)
    have hcs : ∀ c2 ∈ cs, ∀ ev ∈ c2, plainEvent ev = true :=
      fun c2 h2 => hplain c2 (List.mem_cons_of_mem c h2)
    rw [List.flatMap_cons]
    simp only [cellEventsIter, List.append_assoc, List.cons_append, List.nil_append]
    rw [extractLoop_startCell, pushCell_concat]
    show extractLoop (c ++ (Event.stop Tag.tableCell :: (cs.flatMap cellEventsIter ++ rest)))
      (acc ++ [row ++ [[]]]) = _
    rw [extractLoop_cell_contents c hc _ acc row []]
    simp only [List.nil_append]
    rw [extractLoop_stopCell]
    rw [ih hcs rest acc (row ++ [c])]
    simp

/-- Extraction replays serialized data rows after the rows already read. -/
theorem extractLoop_data_rows (rows : List (List (List Event))) :
    ∀ (_ : ∀ r ∈ rows, ∀ c ∈ r, ∀ ev ∈ c, plainEvent ev = true) (rest : List Event)
      (acc : List (List (List Event))),
      extractLoop (rows.flatMap rowEventsIter ++ rest) acc =
        extractLoop rest (acc ++ rows) := by
  induction rows with
  | nil =>
    intro _ rest acc
    simp
  | cons r rs ih =>
    intro hplain rest acc
    have hr := hplain r (List.mem_cons_self r rs)
    have hrs : ∀ r2 ∈ rs, ∀ c ∈ r2, ∀ ev ∈ c, plainEvent ev = true :=
      fun r2 h2 => hplain r2 (List.mem_cons_of_mem r h2)
    rw [List.flatMap_cons]
    simp only [rowEventsIter, List.append_assoc, List.cons_append, List.nil_append]
    rw [extractLoop_startRow]
    rw [extractLoop_row_cells r hr _ acc []]
    simp only [List.nil_append]
    rw [extractLoop_stopRow]
    rw [ih hrs rest (acc ++ [r])]
    simp

/-- Unfolding extraction at a table start. -/
theorem extractTable_start (a : List Alignment) (rest : List Event) :
    extractTable (Event.start (Tag.table a) :: rest) = MarkdownTable.new a rest := rfl

/-- C4: extraction and reassembly are inverse: running the extractor on the
reassembled token sequence of any table (with any continuation appended)
recovers exactly that table and consumes exactly that sequence, including
the table start with its alignment list.  Hence reassembling an unmodified
extracted table — in particular one the detector rejected — reproduces
token for token the sequence the extractor consumed.  The hypotheses state
table well-formedness: a header row exists and cell contents are inline
(non-structural) tokens, which the upstream tokenizer guarantees. -/
theorem extract_reassemble_roundtrip (t : MarkdownTable) (rest : List Event)
    (hne : t.content ≠ [])
    (hplain : ∀ r ∈ t.content, ∀ c ∈ r, ∀ ev ∈ c, plainEvent ev = true) :
    extractTable (t.eventsIter ++ rest) = some (t, rest) := by
  obtain ⟨al, content⟩ := t
  cases content with
  | nil => exact absurd rfl hne
  | cons h rows =>
    have hh : ∀ c ∈ h, ∀ ev ∈ c, plainEvent ev = true :=
      hplain h (List.mem_cons_self h rows)
    have hrows : ∀ r ∈ rows, ∀ c ∈ r, ∀ ev ∈ c, plainEvent ev = true :=
      fun r h2 => hplain r (List.mem_cons_of_mem h h2)
    simp only [MarkdownTable.eventsIter, MarkdownTable.head, MarkdownTable.rows,
      List.headD_cons, List.drop_succ_cons, List.drop_zero, List.append_assoc,
      List.cons_append, List.nil_append]
    rw [extractTable_start]
    unfold MarkdownTable.new
    rw [extractLoop_startHead]
    rw [show ([] : List (List (List Event))) ++ [[]] = [] ++ [[]] from rfl]
    rw [extractLoop_row_cells h hh _ [] []]
    simp only [List.nil_append]
    rw [extractLoop_stopHead]
    rw [show ([h] : List (List (List Event))) = [] ++ [h] from rfl] at *
    rw [extractLoop_data_rows rows hrows _ ([] ++ [h])]
    rw [extractLoop_stopTable]
    simp

/-- Witness for C4 on the crate doc-comment table with a trailing token. -/
theorem extract_reassemble_roundtrip_witness :
    exTable.content ≠ [] ∧
      (∀ r ∈ exTable.content, ∀ c ∈ r, ∀ ev ∈ c, plainEvent ev = true) ∧
      extractTable (exTable.eventsIter ++ [Event.text "tail"]) =
        some (exTable, [Event.text "tail"]) :=
  ⟨by decide, by decide,
    extract_reassemble_roundtrip exTable [Event.text "tail"] (by decide) (by decide)⟩

/-- A present value that is not a TOML string. -/
def wrongTypedStr : Option TomlValue → Bool
  | some (TomlValue.strVal _) => false
  | some _ => true
  | none => false

/-- A present value that is not a TOML boolean. -/
def wrongTypedBool : Option TomlValue → Bool
  | some (TomlValue.boolVal _) => false
  | some _ => true
  | none => false

/-- C7 as amended, library crate side: a recognized option present with a
wrong-typed value makes `RollTables::run` of `src/lib.rs` fail with a
configuration error, before any chapter is processed (the error result
carries no book, so no chapter content is modified). -/
theorem wrong_typed_config_fails (cfg : Config) (chapters : List (List Event))
    (h : (wrongTypedStr cfg.head_separator || wrongTypedStr cfg.separator ||
      wrongTypedBool cfg.warn_unusual_dice) = true) :
    ∃ msg, rollTablesRun cfg chapters = Except.error msg := by
  obtain ⟨o1, o2, o3⟩ := cfg
  rcases o1 with _ | (s1 | b1 | n1) <;> rcases o2 with _ | (s2 | b2 | n2) <;>
    rcases o3 with _ | (s3 | b3 | n3) <;>
    simp_all [wrongTypedStr, wrongTypedBool] <;>
    exact ⟨_, rfl⟩

/-- Witness for C7 as amended: `head-separator` bound to a boolean. -/
theorem wrong_typed_config_fails_witness :
    (wrongTypedStr (some (TomlValue.boolVal true)) || wrongTypedStr none ||
        wrongTypedBool none) = true ∧
      ∃ msg, rollTablesRun ⟨some (TomlValue.boolVal true), none, none⟩ [] =
        Except.error msg :=
  ⟨by decide,
    wrong_typed_config_fails ⟨some (TomlValue.boolVal true), none, none⟩ [] (by decide)⟩

/-- C7 counterexample, binary side: `RollTables::run` of `src/main.rs`
never fails on a wrong-typed recognized option; with `separator` bound to a
boolean it silently falls back to all defaults and still processes the
chapters. -/
theorem main_wrong_typed_config_ignored :
    parseSettingsMain ⟨none, some (TomlValue.boolVal true), none⟩ = ⟨" d", ".", false⟩ ∧
      rollTablesRunMain ⟨none, some (TomlValue.boolVal true), none⟩
          [[Event.text "hello"]] =
        Except.ok [some [Event.text "hello"]] := by
  constructor
  · rfl
  · simp [rollTablesRunMain, handleChapterWith]

end Rolltables
